import Mathlib

/-!
# Verification of the battery dispatch optimizer

A shallow embedding of src/optimizer.py. Real-valued quantities are modelled
by rationals, numpy arrays by lists of rationals, elementwise numpy
operations by List.zipWith, and the external scipy SLSQP solver by an
arbitrary function from the built problem to a solver result. The Python
closures (objective, soc_change, start_soc, end_soc, no_final_discharge)
become functions that take their captured constants as explicit arguments.
-/

namespace Optimizer

/-- Scalar parameters of run (src/optimizer.py). In Python their defaults are
capacity=1.0, volume=1.0, efficiency=0.9, input_soc=0.5, charge_cost=5.0,
discharge_cost=5.0, activation=5.0, time_frequency=0.5, final_soc=0.5;
the prices parameter defaults to None and is modelled separately as an
Option (see prices_default and runPy). -/
structure Params where
  capacity : ℚ
  volume : ℚ
  efficiency : ℚ
  input_soc : ℚ
  charge_cost : ℚ
  discharge_cost : ℚ
  activation : ℚ
  time_frequency : ℚ
  final_soc : ℚ

/-- np.full(period, v): a constant vector of length period. -/
def npFull (period : ℕ) (v : ℚ) : List ℚ := List.replicate period v

/-- np.zeros(n): the all-zero vector of length n. -/
def npZeros (n : ℕ) : List ℚ := List.replicate n 0

/-- x[charge_idx] where charge_idx = slice(0, period). -/
def chargeSlice (period : ℕ) (x : List ℚ) : List ℚ := x.take period

/-- x[discharge_idx] where discharge_idx = slice(period, period * 2). -/
def dischargeSlice (period : ℕ) (x : List ℚ) : List ℚ := (x.drop period).take period

/-- x[soc_idx] where soc_idx = slice(period * 2, period * 3). -/
def socSlice (period : ℕ) (x : List ℚ) : List ℚ := (x.drop (2 * period)).take period

/-- The objective closure of run:
sum((charge * mw_to_mwh * efficiency) * (p + charge_cost))
- sum(discharge * mw_to_mwh * (p - discharge_cost - activation)),
with charge = x[charge_idx], discharge = x[discharge_idx] and the captured
constants period, mw_to_mwh, efficiency and the three cost vectors passed
explicitly. -/
def objective (period : ℕ) (mw_to_mwh efficiency : ℚ)
    (charge_cost discharge_cost activation : List ℚ) (x p : List ℚ) : ℚ :=
  let charge := chargeSlice period x
  let discharge := dischargeSlice period x
  (List.zipWith (fun c s => c * mw_to_mwh * efficiency * s) charge
      (List.zipWith (fun a b => a + b) p charge_cost)).sum
  - (List.zipWith (fun d s => d * mw_to_mwh * s) discharge
      (List.zipWith (fun a b => a - b)
        (List.zipWith (fun a b => a - b) p discharge_cost) activation)).sum

/-- The soc_change constraint closure of run:
soc[1:] - soc[:-1] - charge[:-1] * efficiency * soc_step[:-1]
+ discharge[:-1] * soc_step[:-1], as an elementwise numpy expression. -/
def soc_change (period : ℕ) (efficiency : ℚ) (soc_step : List ℚ)
    (x : List ℚ) : List ℚ :=
  let charge := chargeSlice period x
  let discharge := dischargeSlice period x
  let soc := socSlice period x
  List.zipWith (fun a b => a + b)
    (List.zipWith (fun a b => a - b)
      (List.zipWith (fun a b => a - b) (soc.drop 1) soc.dropLast)
      (List.zipWith (fun c s => c * efficiency * s) charge.dropLast
        soc_step.dropLast))
    (List.zipWith (fun d s => d * s) discharge.dropLast soc_step.dropLast)

/-- The start_soc constraint closure of run: soc[0] - input_soc. -/
def start_soc (period : ℕ) (input_soc : ℚ) (x : List ℚ) : ℚ :=
  (socSlice period x).headI - input_soc

/-- The end_soc constraint closure of run: soc[-1] - final_soc. -/
def end_soc (period : ℕ) (final_soc : ℚ) (x : List ℚ) : ℚ :=
  (socSlice period x).getLastD 0 - final_soc

/-- The no_final_discharge constraint closure of run: discharge[-1]. -/
def no_final_discharge (period : ℕ) (x : List ℚ) : ℚ :=
  (dischargeSlice period x).getLastD 0

/-- Everything run constructs before calling scipy.optimize.minimize:
the horizon length, the captured constants, the initial guess x0 and the
bounds list. -/
structure Problem where
  period : ℕ
  mw_to_mwh : ℚ
  steps_full_trip : ℚ
  soc_step : List ℚ
  charge_cost : List ℚ
  discharge_cost : List ℚ
  activation : List ℚ
  x0 : List ℚ
  bounds : List (ℚ × ℚ)

/-- Lines 30-53 of src/optimizer.py: the problem construction performed by
run before the minimize call. period = len(prices); the scalar costs are
broadcast with np.full; mw_to_mwh = time_frequency;
steps_full_trip = (volume / capacity) * (1 / time_frequency);
soc_step = np.full(period, (volume / capacity) * (1 / steps_full_trip));
x0 = np.zeros(period * 3); bounds = charge_bounds + discharge_bounds
+ soc_bounds with per-element intervals [0, capacity], [0, capacity],
[0, volume]. -/
def buildProblem (P : Params) (prices : List ℚ) : Problem :=
  let period := prices.length
  let charge_cost := npFull period P.charge_cost
  let discharge_cost := npFull period P.discharge_cost
  let activation := npFull period P.activation
  let mw_to_mwh := P.time_frequency
  let steps_full_trip := (P.volume / P.capacity) * (1 / P.time_frequency)
  let soc_step := npFull period ((P.volume / P.capacity) * (1 / steps_full_trip))
  let x0 := npZeros (period * 3)
  let charge_bounds := List.replicate period ((0 : ℚ), P.capacity)
  let discharge_bounds := List.replicate period ((0 : ℚ), P.capacity)
  let soc_bounds := List.replicate period ((0 : ℚ), P.volume)
  { period := period
    mw_to_mwh := mw_to_mwh
    steps_full_trip := steps_full_trip
    soc_step := soc_step
    charge_cost := charge_cost
    discharge_cost := discharge_cost
    activation := activation
    x0 := x0
    bounds := charge_bounds ++ discharge_bounds ++ soc_bounds }

/-- The object returned by scipy.optimize.minimize: success flag, objective
value (sol.fun), decision vector (sol.x) and diagnostic message. -/
structure SolverResult where
  success : Bool
  fval : ℚ
  x : List ℚ
  message : String

/-- Lines 95-109 of src/optimizer.py: run builds the problem, hands it to
the solver, and unconditionally slices the returned decision vector into
(charge, discharge, soc / volume, sol); no branch inspects sol.success. -/
def run (P : Params) (prices : List ℚ) (solver : Problem → SolverResult) :
    List ℚ × List ℚ × List ℚ × SolverResult :=
  let prob := buildProblem P prices
  let sol := solver prob
  (chargeSlice prob.period sol.x, dischargeSlice prob.period sol.x,
    (socSlice prob.period sol.x).map (fun s => s / P.volume), sol)

/-- The Python exceptions relevant to calling run: len(None) raises
TypeError; a descriptive domain error would be a ValueError. -/
inductive PyErr where
  | typeError : PyErr
  | valueError : PyErr
deriving DecidableEq

/-- The default value of the prices parameter in the signature of run:
prices: np.array = None. -/
def prices_default : Option (List ℚ) := none

/-- run as callable from Python, prices being an optional argument. The
first statement of the body is period = len(prices), which raises TypeError
when prices is None; the body contains no parameter validation, so any
prices list proceeds straight to problem construction and the solve. -/
def runPy (P : Params) (prices : Option (List ℚ))
    (solver : Problem → SolverResult) :
    Except PyErr (List ℚ × List ℚ × List ℚ × SolverResult) :=
  match prices with
  | none => Except.error PyErr.typeError
  | some l => Except.ok (run P l solver)

/-! ## List access helper lemmas -/

theorem getD_zipWith {α β γ : Type} (f : α → β → γ) (a : List α) (b : List β)
    (da : α) (db : β) (dg : γ) (i : ℕ) (ha : i < a.length) (hb : i < b.length) :
    (List.zipWith f a b).getD i dg = f (a.getD i da) (b.getD i db) := by
  have hz : i < (List.zipWith f a b).length := by
    rw [List.length_zipWith]; omega
  simp only [List.getD_eq_getElem?_getD, List.getElem?_eq_getElem hz,
    List.getElem?_eq_getElem ha, List.getElem?_eq_getElem hb,
    List.getElem_zipWith, Option.getD_some]

theorem getD_take {α : Type} (l : List α) (d : α) (n i : ℕ) (h : i < n) :
    (l.take n).getD i d = l.getD i d := by
  simp only [List.getD_eq_getElem?_getD, List.getElem?_take, if_pos h]

theorem getD_drop {α : Type} (l : List α) (d : α) (n i : ℕ) :
    (l.drop n).getD i d = l.getD (n + i) d := by
  simp only [List.getD_eq_getElem?_getD, List.getElem?_drop]

theorem getD_dropLast {α : Type} (l : List α) (d : α) (i : ℕ)
    (h : i < l.length - 1) :
    l.dropLast.getD i d = l.getD i d := by
  rw [List.dropLast_eq_take]
  exact getD_take l d _ i h

theorem getD_replicate {α : Type} (v d : α) (n i : ℕ) (h : i < n) :
    (List.replicate n v).getD i d = v := by
  have hh : i < (List.replicate n v).length := by simpa using h
  simp [List.getD_eq_getElem?_getD, List.getElem?_eq_getElem hh]

/-- The sum of an elementwise combination of two equally long vectors,
as a sum over the index range: the numpy sum() of an elementwise
expression. -/
theorem sum_zipWith (f : ℚ → ℚ → ℚ) :
    ∀ (a b : List ℚ), a.length = b.length →
      (List.zipWith f a b).sum
        = ∑ i in Finset.range a.length, f (a.getD i 0) (b.getD i 0) := by
  intro a
  induction a with
  | nil => intro b h; simp
  | cons z zs ih =>
    intro b h
    cases b with
    | nil => simp at h
    | cons w ws =>
      have hlen : zs.length = ws.length := by simpa using h
      simp only [List.zipWith_cons_cons, List.sum_cons, List.length_cons]
      rw [Finset.sum_range_succ']
      simp only [List.getD_cons_succ, List.getD_cons_zero]
      rw [ih ws hlen]
      ring

/-! ## Claims -/

/-- C6: for every period ≥ 1, the bounds list handed to the solver has
length 3·period and consists of, in order, period intervals [0, capacity]
for charge, period intervals [0, capacity] for discharge, and period
intervals [0, volume] for soc. -/
theorem bounds_spec (P : Params) (prices : List ℚ) (hp : 1 ≤ prices.length) :
    (buildProblem P prices).bounds.length = 3 * prices.length ∧
    (∀ i, i < prices.length →
      (buildProblem P prices).bounds.getD i (0, 0) = (0, P.capacity)) ∧
    (∀ i, i < prices.length →
      (buildProblem P prices).bounds.getD (prices.length + i) (0, 0)
        = (0, P.capacity)) ∧
    (∀ i, i < prices.length →
      (buildProblem P prices).bounds.getD (2 * prices.length + i) (0, 0)
        = (0, P.volume)) := by
  have hb : (buildProblem P prices).bounds
      = List.replicate prices.length ((0 : ℚ), P.capacity)
        ++ List.replicate prices.length ((0 : ℚ), P.capacity)
        ++ List.replicate prices.length ((0 : ℚ), P.volume) := rfl
  refine ⟨?_, ?_, ?_, ?_⟩
  · rw [hb]; simp [List.length_append]; ring
  · intro i hi
    rw [hb, List.getD_append _ _ _ _ (by simp; omega),
      List.getD_append _ _ _ _ (by simp; omega)]
    exact getD_replicate _ _ _ _ hi
  · intro i hi
    rw [hb, List.getD_append _ _ _ _ (by simp; omega),
      List.getD_append_right _ _ _ _ (by simp)]
    simp only [List.length_replicate, Nat.add_sub_cancel_left]
    exact getD_replicate _ _ _ _ hi
  · intro i hi
    rw [hb, List.getD_append_right _ _ _ _ (by simp; omega)]
    have hsub : 2 * prices.length + i
        - (List.replicate prices.length ((0 : ℚ), P.capacity)
          ++ List.replicate prices.length ((0 : ℚ), P.capacity)).length = i := by
      simp; omega
    rw [hsub]
    exact getD_replicate _ _ _ _ hi

/-- C6 witness: at the Python default parameters and a two-element price
series, the bounds list has length 6 and its entries at positions 0, 3
and 5 are [0, capacity], [0, capacity] and [0, volume]. -/
theorem bounds_spec_witness :
    (buildProblem ⟨1, 1, 9/10, 1/2, 5, 5, 5, 1/2, 1/2⟩ [10, 20]).bounds.length = 6 ∧
    (buildProblem ⟨1, 1, 9/10, 1/2, 5, 5, 5, 1/2, 1/2⟩ [10, 20]).bounds.getD 3 (0, 0)
      = (0, 1) ∧
    (buildProblem ⟨1, 1, 9/10, 1/2, 5, 5, 5, 1/2, 1/2⟩ [10, 20]).bounds.getD 5 (0, 0)
      = (0, 1) := by
  have h := bounds_spec ⟨1, 1, 9/10, 1/2, 5, 5, 5, 1/2, 1/2⟩ [10, 20] (by decide)
  exact ⟨h.1, h.2.2.1 1 (by decide), h.2.2.2 1 (by decide)⟩

/-- C7: the initial guess handed to the solver is the all-zero vector of
length 3·period, and it depends on nothing but the length of the price
series: two calls with any parameters and equally long price series build
the same initial guess. -/
theorem x0_spec (P Q : Params) (prices qs : List ℚ)
    (h : prices.length = qs.length) :
    (buildProblem P prices).x0 = List.replicate (3 * prices.length) 0 ∧
    (buildProblem P prices).x0 = (buildProblem Q qs).x0 := by
  have h1 : (buildProblem P prices).x0 = npZeros (prices.length * 3) := rfl
  have h2 : (buildProblem Q qs).x0 = npZeros (qs.length * 3) := rfl
  constructor
  · rw [h1, npZeros]; congr 1; ring
  · rw [h1, h2, h]

/-- C7 witness: with two different parameter sets and two different price
series of length 2, both built problems start from the same guess
[0, 0, 0, 0, 0, 0]. -/
theorem x0_spec_witness :
    (buildProblem ⟨1, 1, 9/10, 1/2, 5, 5, 5, 1/2, 1/2⟩ [10, 20]).x0
      = List.replicate (3 * 2) 0 ∧
    (buildProblem ⟨1, 1, 9/10, 1/2, 5, 5, 5, 1/2, 1/2⟩ [10, 20]).x0
      = (buildProblem ⟨2, 3, 1, 0, 1, 2, 3, 1, 1⟩ [7, 8]).x0 := by
  have h := x0_spec ⟨1, 1, 9/10, 1/2, 5, 5, 5, 1/2, 1/2⟩ ⟨2, 3, 1, 0, 1, 2, 3, 1, 1⟩
    [10, 20] [7, 8] (by decide)
  exact ⟨h.1, h.2⟩

/-- C8: for positive capacity, volume and time_frequency, every element of
the soc_step vector equals time_frequency exactly: the volume/capacity
factor cancels against steps_full_trip. -/
theorem soc_step_spec (P : Params) (prices : List ℚ)
    (hc : 0 < P.capacity) (hv : 0 < P.volume) (ht : 0 < P.time_frequency) :
    ∀ i, i < prices.length →
      (buildProblem P prices).soc_step.getD i 0 = P.time_frequency := by
  intro i hi
  have hs : (buildProblem P prices).soc_step
      = npFull prices.length ((P.volume / P.capacity)
          * (1 / ((P.volume / P.capacity) * (1 / P.time_frequency)))) := rfl
  rw [hs, npFull, getD_replicate _ _ _ _ hi]
  have hc0 : P.capacity ≠ 0 := ne_of_gt hc
  have hv0 : P.volume ≠ 0 := ne_of_gt hv
  have ht0 : P.time_frequency ≠ 0 := ne_of_gt ht
  field_simp
  ring

/-- C8 witness: with capacity 2, volume 5 and time_frequency 1/2, the first
soc_step entry of a two-period problem is exactly 1/2. -/
theorem soc_step_spec_witness :
    (buildProblem ⟨2, 5, 9/10, 1/2, 5, 5, 5, 1/2, 1/2⟩ [10, 20]).soc_step.getD 0 0
      = 1/2 := by
  have h := soc_step_spec ⟨2, 5, 9/10, 1/2, 5, 5, 5, 1/2, 1/2⟩ [10, 20]
    (by norm_num) (by norm_num) (by norm_num) 0 (by decide)
  exact h

/-- C3: for a decision vector of length 3·period with period ≥ 2, soc_change
returns a residual vector of length period − 1 covering exactly the
transitions i = 0 .. period − 2, whose i-th component is
soc[i+1] − soc[i] − charge[i]·efficiency·soc_step[i]
+ discharge[i]·soc_step[i]; the transition out of index period − 1 is not
covered. -/
theorem soc_change_spec (period : ℕ) (efficiency : ℚ) (soc_step x : List ℚ)
    (hp : 2 ≤ period) (hx : x.length = 3 * period)
    (hs : soc_step.length = period) :
    (soc_change period efficiency soc_step x).length = period - 1 ∧
    ∀ i, i < period - 1 →
      (soc_change period efficiency soc_step x).getD i 0
        = x.getD (2 * period + (i + 1)) 0 - x.getD (2 * period + i) 0
          - x.getD i 0 * efficiency * soc_step.getD i 0
          + x.getD (period + i) 0 * soc_step.getD i 0 := by
  have hch : (chargeSlice period x).length = period := by
    rw [chargeSlice, List.length_take, hx]; omega
  have hdis : (dischargeSlice period x).length = period := by
    rw [dischargeSlice, List.length_take, List.length_drop, hx]; omega
  have hsoc : (socSlice period x).length = period := by
    rw [socSlice, List.length_take, List.length_drop, hx]; omega
  have hlen : (soc_change period efficiency soc_step x).length = period - 1 := by
    simp only [soc_change, List.length_zipWith, List.length_dropLast,
      List.length_drop, hch, hdis, hsoc, hs]
    omega
  refine ⟨hlen, ?_⟩
  intro i hi
  rw [List.getD_eq_getElem _ _ (by rw [hlen]; exact hi),
    List.getD_eq_getElem x 0 (by omega), List.getD_eq_getElem x 0 (by omega),
    List.getD_eq_getElem x 0 (by omega), List.getD_eq_getElem x 0 (by omega),
    List.getD_eq_getElem soc_step 0 (by omega)]
  simp only [soc_change, chargeSlice, dischargeSlice, socSlice,
    List.getElem_zipWith, List.getElem_dropLast, List.getElem_drop,
    List.getElem_take]
  have e : 2 * period + (1 + i) = 2 * period + (i + 1) := by omega
  simp only [e]

/-- C3 witness: at period 2 with soc_step = [7, 7], efficiency 1/2 and
x = [1, 2, 3, 4, 5, 6], soc_change is the singleton
[6 − 5 − 1·(1/2)·7 + 3·7] = [37/2]. -/
theorem soc_change_spec_witness :
    (soc_change 2 (1/2) [7, 7] [1, 2, 3, 4, 5, 6]).length = 1 ∧
    (soc_change 2 (1/2) [7, 7] [1, 2, 3, 4, 5, 6]).getD 0 0
      = ([1, 2, 3, 4, 5, 6] : List ℚ).getD 5 0
        - ([1, 2, 3, 4, 5, 6] : List ℚ).getD 4 0
        - ([1, 2, 3, 4, 5, 6] : List ℚ).getD 0 0 * (1/2)
          * ([7, 7] : List ℚ).getD 0 0
        + ([1, 2, 3, 4, 5, 6] : List ℚ).getD 2 0
          * ([7, 7] : List ℚ).getD 0 0 := by
  have h := soc_change_spec 2 (1/2) [7, 7] [1, 2, 3, 4, 5, 6]
    (by decide) (by decide) (by decide)
  exact ⟨h.1, h.2 0 (by decide)⟩

/-- C4: the objective equals
Σ charge[i]·mw_to_mwh·efficiency·(p[i] + charge_cost[i])
− Σ discharge[i]·mw_to_mwh·(p[i] − discharge_cost[i] − activation[i]),
with charge = x[0:period] and discharge = x[period:2·period]; the
discharge term carries no efficiency factor. -/
theorem objective_spec (period : ℕ) (mw_to_mwh efficiency : ℚ)
    (cc dc act x p : List ℚ)
    (hx : x.length = 3 * period) (hp : p.length = period)
    (hcc : cc.length = period) (hdc : dc.length = period)
    (hact : act.length = period) :
    objective period mw_to_mwh efficiency cc dc act x p
      = (∑ i in Finset.range period,
          x.getD i 0 * mw_to_mwh * efficiency * (p.getD i 0 + cc.getD i 0))
        - ∑ i in Finset.range period,
            x.getD (period + i) 0 * mw_to_mwh
              * (p.getD i 0 - dc.getD i 0 - act.getD i 0) := by
  have hch : (chargeSlice period x).length = period := by
    rw [chargeSlice, List.length_take, hx]; omega
  have hdis : (dischargeSlice period x).length = period := by
    rw [dischargeSlice, List.length_take, List.length_drop, hx]; omega
  simp only [objective]
  rw [sum_zipWith (fun c s => c * mw_to_mwh * efficiency * s)
      (chargeSlice period x) (List.zipWith (fun a b => a + b) p cc)
      (by rw [hch, List.length_zipWith, hp, hcc]; omega),
    sum_zipWith (fun d s => d * mw_to_mwh * s)
      (dischargeSlice period x)
      (List.zipWith (fun a b => a - b)
        (List.zipWith (fun a b => a - b) p dc) act)
      (by rw [hdis, List.length_zipWith, List.length_zipWith, hp, hdc, hact]
          omega),
    hch, hdis]
  congr 1
  · refine Finset.sum_congr rfl ?_
    intro i hi
    have hi2 : i < period := Finset.mem_range.mp hi
    rw [getD_zipWith (fun a b => a + b) p cc 0 0 0 i (by omega) (by omega),
      chargeSlice, getD_take x 0 period i hi2]
  · refine Finset.sum_congr rfl ?_
    intro i hi
    have hi2 : i < period := Finset.mem_range.mp hi
    rw [getD_zipWith (fun a b => a - b)
        (List.zipWith (fun a b => a - b) p dc) act 0 0 0 i
        (by rw [List.length_zipWith]; omega) (by omega),
      getD_zipWith (fun a b => a - b) p dc 0 0 0 i (by omega) (by omega),
      dischargeSlice, getD_take (x.drop period) 0 period i hi2, getD_drop]

/-- C4 witness: at period 2, mw_to_mwh 1/2, efficiency 9/10, cost vectors
[5, 5], [5, 5], [5, 5], x = [1, 2, 3, 4, 5, 6] and p = [10, 20], the
objective equals the index-range sums of the claim. -/
theorem objective_spec_witness :
    objective 2 (1/2) (9/10) [5, 5] [5, 5] [5, 5] [1, 2, 3, 4, 5, 6] [10, 20]
      = (∑ i in Finset.range 2,
          ([1, 2, 3, 4, 5, 6] : List ℚ).getD i 0 * (1/2) * (9/10)
            * (([10, 20] : List ℚ).getD i 0 + ([5, 5] : List ℚ).getD i 0))
        - ∑ i in Finset.range 2,
            ([1, 2, 3, 4, 5, 6] : List ℚ).getD (2 + i) 0 * (1/2)
              * (([10, 20] : List ℚ).getD i 0 - ([5, 5] : List ℚ).getD i 0
                - ([5, 5] : List ℚ).getD i 0) := by
  exact objective_spec 2 (1/2) (9/10) [5, 5] [5, 5] [5, 5] [1, 2, 3, 4, 5, 6]
    [10, 20] (by decide) (by decide) (by decide) (by decide) (by decide)

/-- C9: the objective never reads the soc segment of the decision vector:
two decision vectors agreeing on their first 2·period entries produce the
same objective value for every price vector. -/
theorem objective_ignores_soc (period : ℕ) (mw_to_mwh efficiency : ℚ)
    (cc dc act p x y : List ℚ)
    (h : x.take (2 * period) = y.take (2 * period)) :
    objective period mw_to_mwh efficiency cc dc act x p
      = objective period mw_to_mwh efficiency cc dc act y p := by
  have hmin : min period (2 * period) = period := by omega
  have h1 : x.take period = y.take period := by
    have hxy := congrArg (List.take period) h
    rwa [List.take_take, List.take_take, hmin] at hxy
  have h2 : (x.drop period).take period = (y.drop period).take period := by
    have hxy := congrArg (List.drop period) h
    rw [List.drop_take, List.drop_take] at hxy
    have h2p : 2 * period - period = period := by omega
    rwa [h2p] at hxy
  simp only [objective, chargeSlice, dischargeSlice, h1, h2]

/-- C9 witness: x = [1, 2, 3, 4, 5, 6] and y = [1, 2, 3, 4, 7, 8] agree on
their first four entries and give the same objective at period 2. -/
theorem objective_ignores_soc_witness :
    objective 2 (1/2) (9/10) [5, 5] [5, 5] [5, 5] [1, 2, 3, 4, 5, 6] [10, 20]
      = objective 2 (1/2) (9/10) [5, 5] [5, 5] [5, 5] [1, 2, 3, 4, 7, 8]
          [10, 20] := by
  exact objective_ignores_soc 2 (1/2) (9/10) [5, 5] [5, 5] [5, 5] [10, 20]
    [1, 2, 3, 4, 5, 6] [1, 2, 3, 4, 7, 8] (by decide)

/-- The last element (with default) of a mapped list is the image of the
last element, for a nonempty list. -/
theorem getLastD_map (f : ℚ → ℚ) (l : List ℚ) (hne : l ≠ []) :
    (l.map f).getLastD 0 = f (l.getLastD 0) := by
  rw [List.getLastD_eq_getLast?, List.getLastD_eq_getLast?, List.getLast?_map]
  cases hq : l.getLast? with
  | none => exact absurd (List.getLast?_eq_none_iff.mp hq) hne
  | some y => simp

/-- The head (with default) of a mapped list is the image of the head, for
a nonempty list. -/
theorem headI_map (f : ℚ → ℚ) (l : List ℚ) (hne : l ≠ []) :
    (l.map f).headI = f l.headI := by
  cases l with
  | nil => exact absurd rfl hne
  | cons a t => rfl

/-- C1 counterexample: with volume = 2, input_soc = final_soc = 1/2 and a
solver returning x = [0, 0, 0, 0, 1/2, 1/2], both start_soc and end_soc
vanish at x and volume > 0, yet the first element of the SoC-fraction
series returned by run is 1/4, not input_soc = 1/2. -/
theorem soc_fraction_endpoints_cex :
    start_soc 2 ((1 : ℚ)/2) [0, 0, 0, 0, 1/2, 1/2] = 0 ∧
    end_soc 2 ((1 : ℚ)/2) [0, 0, 0, 0, 1/2, 1/2] = 0 ∧
    (0 : ℚ) < 2 ∧
    (run ⟨1, 2, 1, 1/2, 0, 0, 0, 1, 1/2⟩ [1, 1]
        (fun _ => ⟨true, 0, [0, 0, 0, 0, 1/2, 1/2], "ok"⟩)).2.2.1.headI
      ≠ (1 : ℚ)/2 := by
  refine ⟨?_, ?_, by norm_num, ?_⟩
  · norm_num [start_soc, socSlice]
  · norm_num [end_soc, socSlice]
  · norm_num [run, buildProblem, socSlice, chargeSlice, dischargeSlice,
      npFull, npZeros]

/-- C1 amended: whenever the start and end equality constraints are
satisfied at the solver's decision vector, the SoC-fraction series returned
by run has first element input_soc / volume and last element
final_soc / volume (so they equal input_soc and final_soc exactly when
volume = 1). -/
theorem soc_fraction_endpoints (P : Params) (prices : List ℚ)
    (sol : SolverResult) (hv : 0 < P.volume) (hp : 2 ≤ prices.length)
    (hx : sol.x.length = 3 * prices.length)
    (hstart : start_soc prices.length P.input_soc sol.x = 0)
    (hend : end_soc prices.length P.final_soc sol.x = 0) :
    (run P prices (fun _ => sol)).2.2.1.headI = P.input_soc / P.volume ∧
    (run P prices (fun _ => sol)).2.2.1.getLastD 0
      = P.final_soc / P.volume := by
  have hsoc : (socSlice prices.length sol.x).length = prices.length := by
    rw [socSlice, List.length_take, List.length_drop, hx]; omega
  have hne : socSlice prices.length sol.x ≠ [] := by
    intro h0
    rw [h0] at hsoc
    simp at hsoc
    omega
  have h1 : (socSlice prices.length sol.x).headI = P.input_soc := by
    have h := hstart
    simp only [start_soc] at h
    exact sub_eq_zero.mp h
  have h2 : (socSlice prices.length sol.x).getLastD 0 = P.final_soc := by
    have h := hend
    simp only [end_soc] at h
    exact sub_eq_zero.mp h
  constructor
  · show ((socSlice prices.length sol.x).map
        (fun s => s / P.volume)).headI = P.input_soc / P.volume
    rw [headI_map _ _ hne, h1]
  · show ((socSlice prices.length sol.x).map
        (fun s => s / P.volume)).getLastD 0 = P.final_soc / P.volume
    rw [getLastD_map _ _ hne, h2]

/-- C1 amended witness: at volume 2, input_soc = final_soc = 1/2 and a
decision vector with soc slice [1/2, 1/2] satisfying both endpoint
constraints, both ends of the returned SoC-fraction series equal
(1/2) / 2. -/
theorem soc_fraction_endpoints_witness :
    (run ⟨1, 2, 1, 1/2, 0, 0, 0, 1, 1/2⟩ [1, 1]
        (fun _ => ⟨true, 0, [0, 0, 0, 0, 1/2, 1/2], "ok"⟩)).2.2.1.headI
      = (1 : ℚ)/2 / 2 ∧
    (run ⟨1, 2, 1, 1/2, 0, 0, 0, 1, 1/2⟩ [1, 1]
        (fun _ => ⟨true, 0, [0, 0, 0, 0, 1/2, 1/2], "ok"⟩)).2.2.1.getLastD 0
      = (1 : ℚ)/2 / 2 := by
  have h := soc_fraction_endpoints ⟨1, 2, 1, 1/2, 0, 0, 0, 1, 1/2⟩ [1, 1]
    ⟨true, 0, [0, 0, 0, 0, 1/2, 1/2], "ok"⟩ (by norm_num) (by decide)
    (by decide) (by norm_num [start_soc, socSlice])
    (by norm_num [end_soc, socSlice])
  exact h

/-- C5: for every solver outcome, in particular one with success = false,
run returns the four components sliced from the solver's decision vector
(charge, discharge, soc divided by volume, diagnostics) as a value, never
as an error; the result carries the solver outcome itself as its fourth
component. -/
theorem run_no_throw (P : Params) (l : List ℚ) (sol : SolverResult)
    (hs : sol.success = false) :
    runPy P (some l) (fun _ => sol)
      = Except.ok (chargeSlice l.length sol.x, dischargeSlice l.length sol.x,
          (socSlice l.length sol.x).map (fun s => s / P.volume), sol) := rfl

/-- C5 witness: a non-converged solver outcome (success = false, message
"max iterations") is returned as data together with the sliced decision
vector, with no error. -/
theorem run_no_throw_witness :
    (⟨false, 0, [1, 2, 3, 4, 5, 6], "max iterations"⟩
        : SolverResult).success = false ∧
    runPy ⟨1, 1, 9/10, 1/2, 5, 5, 5, 1/2, 1/2⟩ (some [10, 20])
        (fun _ => ⟨false, 0, [1, 2, 3, 4, 5, 6], "max iterations"⟩)
      = Except.ok ([1, 2], [3, 4],
          ([5, 6] : List ℚ).map (fun s => s / 1),
          ⟨false, 0, [1, 2, 3, 4, 5, 6], "max iterations"⟩) := by
  constructor
  · rfl
  · exact run_no_throw ⟨1, 1, 9/10, 1/2, 5, 5, 5, 1/2, 1/2⟩ [10, 20]
      ⟨false, 0, [1, 2, 3, 4, 5, 6], "max iterations"⟩ rfl

/-- C10: prices defaults to None and run evaluates len(prices) as its first
step, so calling run without a price series fails with a TypeError — not a
descriptive domain error — and no problem is constructed and no solver
invoked. -/
theorem run_default_prices (P : Params) (solver : Problem → SolverResult) :
    runPy P prices_default solver = Except.error PyErr.typeError := rfl

/-- C2 failing input: efficiency = 2 lies outside [0, 1], yet run performs
no parameter validation: the call proceeds to problem construction and the
solver is invoked, returning a result instead of raising a descriptive
domain error. -/
theorem run_skips_validation :
    1 < (⟨1, 1, 2, 1/2, 5, 5, 5, 1/2, 1/2⟩ : Params).efficiency ∧
    runPy ⟨1, 1, 2, 1/2, 5, 5, 5, 1/2, 1/2⟩ (some [10, 20])
        (fun _ => ⟨true, 0, npZeros 6, "ok"⟩)
      = Except.ok (run ⟨1, 1, 2, 1/2, 5, 5, 5, 1/2, 1/2⟩ [10, 20]
          (fun _ => ⟨true, 0, npZeros 6, "ok"⟩)) :=
  ⟨by norm_num, rfl⟩

end Optimizer
